import Mathlib

/-
  Verification of the ucas-scraper core against its specification.

  Shallow embedding of:
  - src/utils/fetcher/fetcher.py           (Fetcher.request, rate limiting, error ledger)
  - src/v3/utils/fetcher/response_handler.py (ResponseHandler.process)
  - src/v3/utils/file_handler.py           (FileHandler: write/read/read_list, sanitization)
  - src/utils/output.py                    (Output: same store logic without fallback)
  - src/v2/acquirers/course_acquirer.py    (CourseAcquirer per-entity processing)
  - src/v3/acquirers/course_search.py      (SearchService pagination loop)

  Python effects are made explicit: the filesystem is a value (directories
  and files), network responses are oracles, sleeps and ledger appends are
  counted, and Python exceptions are modelled with Except.
-/

set_option maxRecDepth 8192

namespace Ucas

/-! ## Python string helpers -/

/-- Python regular-expression class \s over ASCII: space, tab, newline,
carriage return, vertical tab, form feed. -/
def isPySpace (c : Char) : Bool :=
  c = ' ' || c = '\t' || c = '\n' || c = '\r' || c = '\x0b' || c = '\x0c'

/-- Character-level model of re.sub("\\s+", " ", s): every maximal run of
whitespace becomes a single space.  `inSpace` records whether the previous
character belonged to a whitespace run already replaced. -/
def collapseGo : Bool → List Char → List Char
  | _, [] => []
  | inSpace, c :: cs =>
      if isPySpace c then
        if inSpace then collapseGo true cs
        else ' ' :: collapseGo true cs
      else c :: collapseGo false cs

def collapseChars (l : List Char) : List Char :=
  collapseGo false l

/-- re.sub("\\s+", " ", s) on Lean strings. -/
def collapseWs (s : String) : String :=
  String.mk (collapseChars s.toList)

/-- The diagnostic excerpt built by ResponseHandler: whitespace collapsed,
then truncated to the first 79 characters (Python slice [:79]). -/
def diagExcerpt (s : String) : String :=
  (collapseWs s).take 79

/-! ## ResponseHandler (src/v3/utils/fetcher/response_handler.py)

`process` returns the response content (bytes) on 200 and the numeric
status code otherwise; diagnostics are printed.  We model bytes as
`List Nat` and return the printed lines alongside the classification. -/

/-- Return value of ResponseHandler.process: bytes payload or status code. -/
inductive FetchResult
  | payload (body : List Nat)
  | code (status : Nat)
deriving DecidableEq, Repr

/-- ResponseHandler.process.  `content`/`text` mirror the Optional dataclass
fields.  Python `self.content or b""` yields the content when non-empty and
b"" otherwise; both directions coincide with `getD []` here. -/
def processResponse (status : Nat) (content : Option (List Nat)) (text : Option String) :
    FetchResult × List String :=
  if status = 200 then
    (.payload (content.getD []), [" ✅"])
  else if status = 404 then
    (.code status, [" - doesn't exist"])
  else
    match text with
    | some t =>
        if t = "" then (.code status, [])
        else (.code status, [" ❌ " ++ toString status ++ ": " ++ diagExcerpt t])
    | none => (.code status, [])

/-! ## Fetcher.request (src/utils/fetcher/fetcher.py)

One logical request makes up to max_retries attempts.  Each attempt either
raises a transient transport error (httpx ConnectTimeout / ReadTimeout /
RemoteProtocolError) -- after which the client sleeps 1 second and recreates
its HTTP connection -- or completes with an HTTP response that is classified
by ResponseHandler.  Exhausting all attempts appends the URI to the error
ledger (creating its parent directory) and raises HttpError. -/

/-- What the i-th attempt of a request does. -/
inductive Attempt
  | transient
  | response (status : Nat) (content : List Nat) (text : String)
deriving DecidableEq

/-- The retry loop body: walk attempts `idx, idx+1, ...` while `remaining`
attempts are allowed.  Returns the classified response of the first
completed attempt (or none if every attempt was transient) together with
the number of retry handlers that ran (each does one sleep(1) and one
client recreation). -/
def requestLoop (attempts : Nat → Attempt) : Nat → Nat → Option (FetchResult × List String) × Nat
  | _, 0 => (none, 0)
  | idx, remaining + 1 =>
      match attempts idx with
      | .response st c t => (some (processResponse st (some c) (some t)), 0)
      | .transient =>
          let rest := requestLoop attempts (idx + 1) remaining
          (rest.1, rest.2 + 1)

/-- Everything observable about one Fetcher.request call. -/
structure RequestOutcome where
  result : Except String FetchResult
  sleeps : Nat
  recreations : Nat
  ledger : List String
  errorDirCreated : Bool

/-- Fetcher.request.  `ledger0` is the error-ledger file content (a list of
already-written lines); a terminal failure appends exactly the line
"uri\n" after creating the ledger's parent directory. -/
def request (maxRetries : Nat) (attempts : Nat → Attempt) (uri : String)
    (ledger0 : List String) : RequestOutcome :=
  match requestLoop attempts 0 maxRetries with
  | (some (r, _), k) => ⟨.ok r, k, k, ledger0, false⟩
  | (none, k) =>
      ⟨.error ("Failed to fetch " ++ uri ++ " after " ++ toString maxRetries ++ " attempts"),
        k, k, ledger0 ++ [uri ++ "\n"], true⟩

/-! ## Rate limiter (src/utils/fetcher/fetcher.py __apply_rate_limit,
src/utils/fetcher/fetcher_config.py RateLimit) -/

/-- A named channel budget: `requests` allowed per window of `seconds`,
with the running `counter`. -/
structure RateLimit where
  requests : Nat
  seconds : Nat
  counter : Nat
deriving DecidableEq, Repr

/-- Dictionary lookup in config.rate_limits. -/
def lookupLimit : List (String × RateLimit) → String → Option RateLimit
  | [], _ => none
  | (n, rl) :: rest, t => if n = t then some rl else lookupLimit rest t

/-- In-place mutation of the named channel object. -/
def updateLimit : List (String × RateLimit) → String → RateLimit → List (String × RateLimit)
  | [], _, _ => []
  | (n, rl) :: rest, t, v =>
      if n = t then (n, v) :: rest else (n, rl) :: updateLimit rest t v

/-- Fetcher.__apply_rate_limit: unknown channel raises KeyError; otherwise
the counter is incremented and, if it now exceeds `requests`, it is reset
to 0 and the caller sleeps for `seconds`.  Returns the updated channel
table and the sleep duration (0 when no sleep happened). -/
def applyRateLimit (limits : List (String × RateLimit)) (t : String) :
    Except String (List (String × RateLimit) × Nat) :=
  match lookupLimit limits t with
  | none => .error ("Rate limit type " ++ t ++ " not found")
  | some rl =>
      let c := rl.counter + 1
      if rl.requests < c then
        .ok (updateLimit limits t { rl with counter := 0 }, rl.seconds)
      else
        .ok (updateLimit limits t { rl with counter := c }, 0)

/-- n successive acquire calls on channel `t`; collects the sleep durations.
none models a raised KeyError. -/
def acquireTimes (t : String) : Nat → List (String × RateLimit) →
    Option (List (String × RateLimit) × List Nat)
  | 0, limits => some (limits, [])
  | n + 1, limits =>
      match applyRateLimit limits t with
      | .error _ => none
      | .ok (limits1, s) =>
          match acquireTimes t n limits1 with
          | none => none
          | some (limits2, ss) => some (limits2, s :: ss)

/-! ## JSON values and Python dict operations

Cached structured records are JSON documents.  Python's json module round
trips this subset (string keys, string/int/bool/null/array/object values)
faithfully, so the store keeps the structured value and serialization is
rendered only where raw file text is observed (read_list). -/

inductive JVal
  | str (s : String)
  | num (n : Int)
  | bool (b : Bool)
  | null
  | arr (xs : List JVal)
  | obj (fields : List (String × JVal))

/-- A Python dict with string keys, in insertion order. -/
abbrev JsonObj := List (String × JVal)

/-- d[k] lookup (first and only binding of k). -/
def objLookup : JsonObj → String → Option JVal
  | [], _ => none
  | (k, v) :: rest, key => if k = key then some v else objLookup rest key

/-- `key in d`. -/
def objMem (o : JsonObj) (k : String) : Bool :=
  (objLookup o k).isSome

/-- d[k] = v assignment: replaces the existing binding in place, else
appends at the end (Python dict insertion-order semantics). -/
def objInsert : JsonObj → String → JVal → JsonObj
  | [], key, v => [(key, v)]
  | (k, w) :: rest, key, v =>
      if k = key then (k, v) :: rest else (k, w) :: objInsert rest key v

/-- d.get(k, default). -/
def objGetD (o : JsonObj) (k : String) (default : JVal) : JVal :=
  (objLookup o k).getD default

/-! ## Rendering (json.dump with indent=4)

Needed only because read_list observes raw file text. -/

/-- JSON string escaping as json.dump produces it. -/
def jsonEscapeChar (c : Char) : List Char :=
  if c = '\\' then ['\\', '\\']
  else if c = '"' then ['\\', '"']
  else if c = '\n' then ['\\', 'n']
  else if c = '\t' then ['\\', 't']
  else if c = '\r' then ['\\', 'r']
  else [c]

def jsonEscape (s : String) : String :=
  String.mk (s.toList.flatMap jsonEscapeChar)

def indentSpaces (lvl : Nat) : String :=
  String.mk (List.replicate (4 * lvl) ' ')

def joinSep (sep : String) : List String → String
  | [] => ""
  | [x] => x
  | x :: xs => x ++ sep ++ joinSep sep xs

mutual
/-- json.dump(v, indent=4) at nesting level lvl. -/
def renderJVal (lvl : Nat) : JVal → String
  | .str s => "\"" ++ jsonEscape s ++ "\""
  | .num n => toString n
  | .bool true => "true"
  | .bool false => "false"
  | .null => "null"
  | .arr [] => "[]"
  | .arr (x :: xs) =>
      "[\n" ++ joinSep ",\n" (renderItems (lvl + 1) (x :: xs)) ++ "\n"
        ++ indentSpaces lvl ++ "]"
  | .obj [] => "\x7b\x7d"
  | .obj (f :: fs) =>
      "\x7b\n" ++ joinSep ",\n" (renderFields (lvl + 1) (f :: fs)) ++ "\n"
        ++ indentSpaces lvl ++ "\x7d"

def renderItems (lvl : Nat) : List JVal → List String
  | [] => []
  | x :: xs => (indentSpaces lvl ++ renderJVal lvl x) :: renderItems lvl xs

def renderFields (lvl : Nat) : List (String × JVal) → List String
  | [] => []
  | (k, v) :: fs =>
      (indentSpaces lvl ++ "\"" ++ jsonEscape k ++ "\": " ++ renderJVal lvl v)
        :: renderFields lvl fs
end

/-- Text of a JSON document file as written by JsonWriter. -/
def pyJsonDump (o : JsonObj) : String :=
  renderJVal 0 (.obj o)

/-! ## The cache filesystem -/

/-- Content of one file in the store.  `jsonF` is a well-formed JSON
document; `badJson` is a file whose text does not deserialize. -/
inductive FileData
  | jsonF (o : JsonObj)
  | htmlF (s : String)
  | textF (raw : String)
  | badJson (raw : String)

/-- Raw text of a file (file.read()). -/
def fileRaw : FileData → String
  | .jsonF o => pyJsonDump o
  | .htmlF s => s
  | .textF raw => raw
  | .badJson raw => raw

/-- The on-disk state: the set of directories that exist and the files,
each keyed by its full path (a list of path segments from the root). -/
structure FS where
  dirs : List (List String)
  files : List (List String × FileData)

/-- Membership of a directory path. -/
def pathMem : List (List String) → List String → Bool
  | [], _ => false
  | q :: rest, p => if q = p then true else pathMem rest p

/-- File lookup by full path. -/
def pathLookup : List (List String × FileData) → List String → Option FileData
  | [], _ => none
  | (q, d) :: rest, p => if q = p then some d else pathLookup rest p

/-- File creation/overwrite at a full path. -/
def pathInsert : List (List String × FileData) → List String → FileData →
    List (List String × FileData)
  | [], p, d => [(p, d)]
  | (q, e) :: rest, p, d =>
      if q = p then (q, d) :: rest else (q, e) :: pathInsert rest p d

/-- All non-empty prefixes of a path (the chain of directories that
mkdir(parents=True) ensures). -/
def listAncestry : List String → List (List String)
  | [] => []
  | x :: rest => [x] :: (listAncestry rest).map (fun q => x :: q)

/-- Path.mkdir(parents=True, exist_ok=True): create every missing
directory on the chain. -/
def mkdirs (fs : FS) (p : List String) : FS :=
  { fs with dirs := fs.dirs ++ (listAncestry p).filter (fun q => !pathMem fs.dirs q) }

/-! ## FileHandler (src/v3/utils/file_handler.py)
and Output (src/utils/output.py), which shares the same store logic
without the fallback read. -/

/-- __sanitize_path_component: component.replace("\\", "").replace("/", " & ").
Both patterns are single characters, so one left-to-right pass over the
characters is equivalent to the two successive str.replace calls. -/
def sanitizeChars : List Char → List Char
  | [] => []
  | c :: rest =>
      if c = '\\' then sanitizeChars rest
      else if c = '/' then ' ' :: '&' :: ' ' :: sanitizeChars rest
      else c :: sanitizeChars rest

def sanitizeComponent (c : String) : String :=
  String.mk (sanitizeChars c.toList)

def sanitizedLocation (location : List String) : List String :=
  location.map sanitizeComponent

/-- __create_folder_path: sanitize each segment, join under the handler's
base path (modelled as the top-level name, e.g. "data"), mkdir parents. -/
def createFolderPath (fs : FS) (top : String) (location : List String) :
    List String × FS :=
  let path := top :: sanitizedLocation location
  (path, mkdirs fs path)

/-- Content accepted by FileHandler.write. -/
inductive WContent
  | html (s : String)
  | record (o : JsonObj)
  | lines (ls : List String)

/-- FileHandler.write: select serialization by the content's runtime type
and overwrite the document.  TextWriter uses writelines, which concatenates
the given strings without adding newlines. -/
def fhWrite (fs : FS) (top : String) (location : List String) (document : String)
    (content : WContent) : FS :=
  let pfs := createFolderPath fs top location
  match content with
  | .html s =>
      { pfs.2 with files := pathInsert pfs.2.files (pfs.1 ++ [document ++ ".html"]) (.htmlF s) }
  | .record o =>
      { pfs.2 with files := pathInsert pfs.2.files (pfs.1 ++ [document ++ ".json"]) (.jsonF o) }
  | .lines ls =>
      { pfs.2 with
        files := pathInsert pfs.2.files (pfs.1 ++ [document ++ ".txt"]) (.textF (String.join ls)) }

/-- The four ways the body of read can go before fallback handling. -/
inductive ReadCore
  | found (o : JsonObj)
  | decodeFail
  | absent
  | indexErr

/-- The shared body of FileHandler.read and Output.read: create the folder
path, open "{document}.json".  If the open succeeds, a progress print
evaluates location[1] and location[0] before json.load runs, so a location
with fewer than two segments raises IndexError; a file that fails to
deserialize is caught (JSONDecodeError) and reported as a failed read.
An absent file raises FileNotFoundError, handled by the caller. -/
def readCore (fs : FS) (top : String) (location : List String) (document : String) :
    ReadCore × FS :=
  let pfs := createFolderPath fs top location
  let rc : ReadCore :=
    match pathLookup pfs.2.files (pfs.1 ++ [document ++ ".json"]) with
    | none => .absent
    | some fd =>
        if location.length < 2 then .indexErr
        else
          match fd with
          | .jsonF o => .found o
          | _ => .decodeFail
  (rc, pfs.2)

/-- Output.read (no fallback): absent and decode failure both yield None. -/
def outputRead (fs : FS) (top : String) (location : List String) (document : String) :
    Except String (Option JsonObj) × FS :=
  match readCore fs top location document with
  | (.indexErr, fs1) => (.error "IndexError", fs1)
  | (.found o, fs1) => (.ok (some o), fs1)
  | (.decodeFail, fs1) => (.ok none, fs1)
  | (.absent, fs1) => (.ok none, fs1)

/-- FileHandler.read.  On FileNotFoundError with fallback enabled a fresh
FileHandler("v1.1") (whose constructor mkdirs its base directory) is
consulted with fallback disabled, and `that_result or {}` is returned --
so absence from both stores yields an empty record, not None.  Decode
failure returns None without consulting the fallback. -/
def fhRead (fs : FS) (top : String) (location : List String) (document : String)
    (fallback : Bool) : Except String (Option JsonObj) × FS :=
  match readCore fs top location document with
  | (.indexErr, fs1) => (.error "IndexError", fs1)
  | (.found o, fs1) => (.ok (some o), fs1)
  | (.decodeFail, fs1) => (.ok none, fs1)
  | (.absent, fs1) =>
      if !fallback then (.ok none, fs1)
      else
        match readCore (mkdirs fs1 ["v1.1"]) "v1.1" location document with
        | (.indexErr, fs2) => (.error "IndexError", fs2)
        | (.found o, fs2) => (.ok (some o), fs2)
        | (.decodeFail, fs2) => (.ok (some []), fs2)
        | (.absent, fs2) => (.ok (some []), fs2)

/-- Python str.splitlines: split at \n, \r\n or \r; no trailing empty
line for text ending in a line break. -/
def splitlinesAux (acc : List Char) : List Char → List String
  | [] => if acc.isEmpty then [] else [String.mk acc.reverse]
  | '\r' :: '\n' :: rest => String.mk acc.reverse :: splitlinesAux [] rest
  | '\n' :: rest => String.mk acc.reverse :: splitlinesAux [] rest
  | '\r' :: rest => String.mk acc.reverse :: splitlinesAux [] rest
  | c :: rest => splitlinesAux (c :: acc) rest

def pySplitlines (s : String) : List String :=
  splitlinesAux [] s.toList

/-- FileHandler.read_list / Output.read_list: the document name is used
verbatim (no extension added); an absent file yields the empty list. -/
def fhReadList (fs : FS) (top : String) (location : List String) (document : String) :
    List String × FS :=
  let pfs := createFolderPath fs top location
  match pathLookup pfs.2.files (pfs.1 ++ [document]) with
  | none => ([], pfs.2)
  | some fd => (pySplitlines (fileRaw fd), pfs.2)

/-- Content accepted by Output.write (src/utils/output.py): HTML text or a
JSON record; lists are not handled by this older writer. -/
inductive OContent
  | html (s : String)
  | record (o : JsonObj)

/-- Output.write. -/
def outputWrite (fs : FS) (top : String) (location : List String) (document : String)
    (content : OContent) : FS :=
  let pfs := createFolderPath fs top location
  match content with
  | .html s =>
      { pfs.2 with files := pathInsert pfs.2.files (pfs.1 ++ [document ++ ".html"]) (.htmlF s) }
  | .record o =>
      { pfs.2 with files := pathInsert pfs.2.files (pfs.1 ++ [document ++ ".json"]) (.jsonF o) }

/-! ## Path resolution (for the sanitization safety claim)

The store joins sanitized segments under its base directory and the OS
resolves "." and ".." during mkdir/open.  `resolvePath` models that
resolution on segment lists; pathlib drops empty components at join time. -/

def resolveStep (acc : List String) (s : String) : List String :=
  if s = "" then acc
  else if s = "." then acc
  else if s = ".." then acc.dropLast
  else acc ++ [s]

def resolvePath (base : List String) (segs : List String) : List String :=
  segs.foldl resolveStep base

/-! ## CourseAcquirer (src/v2/acquirers/course_acquirer.py)

Per-entity processing: an unconditional details fetch, a cache-first
historic-grades fetch, and per-grade cache-first confirmation-rate
fetches.  Network responses are oracles; each API call is logged. -/

/-- str.split(sep) for a one-character separator, structurally. -/
def splitOnChar (sep : Char) : List Char → List (List Char)
  | [] => [[]]
  | c :: rest =>
      match splitOnChar sep rest with
      | [] => [[]]
      | g :: gs => if c = sep then [] :: g :: gs else (c :: g) :: gs

def pySplitChar (sep : Char) (s : String) : List String :=
  (splitOnChar sep s.data).map String.mk

/-- str.lower() over ASCII. -/
def lowerChar (c : Char) : Char :=
  if 65 ≤ c.toNat ∧ c.toNat ≤ 90 then Char.ofNat (c.toNat + 32) else c

def pyLower (s : String) : String :=
  String.mk (s.data.map lowerChar)

/-- CourseIdParser.parse (src/v3/utils/course_id_parser.py; the v2 copy is
imported under utils.course_id_parser): URLs keep the last path segment
(split("/")[-1]) up to a query string (split("?")[0]), plain ids pass
through. -/
def parseCourseId (u : String) : String :=
  if (pyLower u).startsWith "http" then
    (pySplitChar '?' ((pySplitChar '/' u).getLastD "")).headD ""
  else u

/-- Python str() of a JSON value.  Scalar cases are exact; composite values
(str of a dict/list uses repr) are rendered with the JSON renderer -- in the
verified statements path components and captions are scalars, and no
theorem depends on the composite text. -/
def pyStr : JVal → String
  | .str s => s
  | .num n => toString n
  | .bool true => "True"
  | .bool false => "False"
  | .null => "None"
  | .arr xs => renderJVal 0 (.arr xs)
  | .obj o => renderJVal 0 (.obj o)

/-- Python truthiness of a JSON value. -/
def jTruthy : JVal → Bool
  | .str s => s ≠ ""
  | .num n => n ≠ 0
  | .bool b => b
  | .null => false
  | .arr xs => !xs.isEmpty
  | .obj fs => !fs.isEmpty

/-- d[k] on a dict: KeyError if missing. -/
def jGet (o : JsonObj) (k : String) : Except String JVal :=
  match objLookup o k with
  | some v => .ok v
  | none => .error ("KeyError: " ++ k)

/-- v[k] with a string key on an arbitrary value: dict lookup, TypeError
on anything that is not a dict. -/
def jIndex (v : JVal) (k : String) : Except String JVal :=
  match v with
  | .obj o => jGet o k
  | _ => .error "TypeError"

/-- int(v): ints pass through, bools coerce, numeric strings parse,
anything else raises. -/
def pyInt (v : JVal) : Except String Int :=
  match v with
  | .num n => .ok n
  | .bool true => .ok 1
  | .bool false => .ok 0
  | .str s =>
      match s.toInt? with
      | some n => .ok n
      | none => .error "ValueError"
  | _ => .error "TypeError"

/-- cached_property options: details["course"]["options"], first element
if the list is non-empty, else the value itself; non-dict results become
the empty dict.  len() of a non-sequence raises TypeError; subscripting a
non-empty dict with 0 raises KeyError. -/
def optionsOf (course : JVal) : Except String JsonObj := do
  let od ← jIndex course "options"
  match od with
  | .arr (x :: _) =>
      match x with
      | .obj o => .ok o
      | _ => .ok []
  | .arr [] => .ok []
  | .obj [] => .ok []
  | .obj (_ :: _) => .error "KeyError: 0"
  | .str _ => .ok []
  | _ => .error "TypeError"

/-- cached_property provider: details["course"]["provider"], defaulting a
non-dict value to the empty dict. -/
def providerOf (course : JVal) : Except String JsonObj := do
  let p ← jIndex course "provider"
  match p with
  | .obj o => .ok o
  | _ => .ok []

/-- cached_property course_duration. -/
def courseDuration (options : JsonObj) : Except String String := do
  let duration ← jGet options "duration"
  if jTruthy duration then
    let q ← jIndex duration "quantity"
    let n ← pyInt q
    let dt ← jIndex duration "durationType"
    let cap ← jIndex dt "caption"
    .ok (toString n ++ " " ++ pyStr cap)
  else
    .ok "Unknown"

/-- TEMPLATE_ENTRY_REQUIREMENTS. -/
def entryTemplate : JsonObj :=
  [("a_level", .obj [("offer", .bool false), ("requirements", .str "")]),
   ("ucas_tariff", .obj [("offer", .bool false), ("requirements", .str "")])]

/-- ENTRY_REQUIREMENT_TYPES.get(name, None).  A list or dict key would be
unhashable (TypeError); other values simply miss. -/
def entryTypeOf (name : JVal) : Except String (Option String) :=
  match name with
  | .str "A level" => .ok (some "a_level")
  | .str "UCAS Tariff" => .ok (some "ucas_tariff")
  | .arr _ => .error "TypeError"
  | .obj _ => .error "TypeError"
  | _ => .ok none

/-- The loop body of cached_property entry_requirements. -/
def entryFold : List JVal → JsonObj → Except String JsonObj
  | [], er => .ok er
  | q :: rest, er => do
      let name ← jIndex q "qualificationName"
      match (← entryTypeOf name) with
      | none => entryFold rest er
      | some key => do
          let s ← jIndex q "summary"
          entryFold rest (objInsert er key s)

/-- cached_property entry_requirements.  Iterating a non-list raises once
an element is subscripted with a string key; an empty dict or empty string
iterates zero times. -/
def entryRequirementsOf (options : JsonObj) : Except String JsonObj := do
  let aer ← jGet options "academicEntryRequirements"
  let quals ← jIndex aer "qualifications"
  match quals with
  | .arr l => entryFold l entryTemplate
  | .obj [] => .ok entryTemplate
  | .str "" => .ok entryTemplate
  | _ => .error "TypeError"

/-- The assembled course record (the fields CourseAcquirer sets on
v2.models.course.Course), plus the confirmation-rate map the acquirer
writes alongside it. -/
structure CourseRec where
  ucasId : String
  courseCode : JVal
  institutionCode : JVal
  location : JVal
  providerSort : JVal
  providerUrl : JVal
  provider : JVal
  qualification : JVal
  studyMode : JVal
  title : JVal
  duration : String
  aLevelText : JVal
  aLevel : JVal
  ucasTariffText : JVal
  ucasTariff : JVal
  mostCommonGrade : JVal
  minimumGrade : JVal
  maximumGrade : JVal

/-- __fetch_basic_details, field-extraction part (lines 36-62): everything
computed from the fetched details document.  Historic fields are defaulted
and filled by the historic step. -/
def buildBasic (ucasId : String) (details : JsonObj) : Except String CourseRec := do
  let course ← jGet details "course"
  let courseCode ← jIndex course "applicationCode"
  let provider ← providerOf course
  let options ← optionsOf course
  let institutionCode ← jGet provider "institutionCode"
  let locObj ← jGet options "location"
  let location ← jIndex locObj "name"
  let providerSort ← jGet provider "providerSort"
  let providerUrl ← jGet options "providerCourseUrl"
  let providerName ← jGet provider "name"
  let qualObj ← jGet options "outcomeQualification"
  let qualification ← jIndex qualObj "caption"
  let smObj ← jGet options "studyMode"
  let studyMode ← jIndex smObj "caption"
  let title ← jIndex course "courseTitle"
  let duration ← courseDuration options
  let er ← entryRequirementsOf options
  let aBlock ← jGet er "a_level"
  let aLevelText ← jIndex aBlock "requirements"
  let aLevel ← jIndex aBlock "offer"
  let tBlock ← jGet er "ucas_tariff"
  let ucasTariffText ← jIndex tBlock "requirements"
  let ucasTariff ← jIndex tBlock "offer"
  .ok { ucasId := ucasId, courseCode := courseCode, institutionCode := institutionCode,
        location := location, providerSort := providerSort, providerUrl := providerUrl,
        provider := providerName, qualification := qualification, studyMode := studyMode,
        title := title, duration := duration, aLevelText := aLevelText, aLevel := aLevel,
        ucasTariffText := ucasTariffText, ucasTariff := ucasTariff,
        mostCommonGrade := .str "", minimumGrade := .str "", maximumGrade := .str "" }

/-- Configuration slice the acquirer needs (utils.config.Config):
the raw predicted_grades string and str(academic_year). -/
structure AcqConfig where
  predictedGrades : String
  academicYear : String

/-- cached_property predicted_grades_list: config.predicted_grades.split(","). -/
def predictedGradesList (cfg : AcqConfig) : List String :=
  pySplitChar ',' cfg.predictedGrades

/-- cached_property __file_location. -/
def locationOf (cfg : AcqConfig) (r : CourseRec) : List String :=
  ["providers", pyStr r.providerSort, pyStr r.title, pyStr r.qualification, cfg.academicYear]

/-- The deterministic network: the parsed JSON bodies the three UCAS APIs
return for this entity ("unchanged catalogue and statistics source"). -/
structure Network where
  detailJson : JsonObj
  historicJson : JsonObj
  confJson : String → JsonObj

/-- One issued network request. -/
inductive NetCall
  | detail
  | historic
  | conf (grade : String)
deriving DecidableEq

/-- Extraction of the confirmation rate from one API response:
results["results"][0]["confirmationRate"] if the results list is
non-empty, else "". -/
def pluckRate (res : JsonObj) : Except String JVal := do
  let rs ← jGet res "results"
  match rs with
  | .arr [] => .ok (.str "")
  | .arr (x :: _) => jIndex x "confirmationRate"
  | .str "" => .ok (.str "")
  | .obj [] => .ok (.str "")
  | .str _ => .error "TypeError"
  | .obj (_ :: _) => .error "KeyError: 0"
  | _ => .error "TypeError"

/-- The per-grade loop of __fetch_confirmation_rates: grades already in
the cached map are skipped; missing grades cost one POST each. -/
def confLoop (net : Network) : List String → JsonObj → Except String JsonObj × List NetCall
  | [], m => (.ok m, [])
  | g :: rest, m =>
      if objMem m g then confLoop net rest m
      else
        match pluckRate (net.confJson g) with
        | .error e => (.error e, [.conf g])
        | .ok r =>
            let t := confLoop net rest (objInsert m g r)
            (t.1, .conf g :: t.2)

/-- __fetch_basic_details: the details fetch is unconditional (there is no
cache consultation; the cache location itself depends on fetched fields).
Field extraction precedes the cache write, so an extraction failure leaves
the store untouched.  The one network call made here is accounted in
`processEntity`. -/
def fetchBasicDetails (cfg : AcqConfig) (net : Network) (ucasId : String) (fs : FS) :
    Except String (CourseRec × List String) × FS :=
  match buildBasic ucasId net.detailJson with
  | .error e => (.error e, fs)
  | .ok rec0 =>
      let location := locationOf cfg rec0
      (.ok (rec0, location),
        outputWrite fs "data" location "course" (.record net.detailJson))

/-- The three course fields filled from a historic-grades document with
.get(key, "") defaults. -/
def histFill (rec0 : CourseRec) (h : JsonObj) : CourseRec :=
  { rec0 with
    mostCommonGrade := objGetD h "mostCommonGrade" (.str ""),
    minimumGrade := objGetD h "minimumGrade" (.str ""),
    maximumGrade := objGetD h "maximumGrade" (.str "") }

/-- __fetch_historic_data: cache-first.  A falsy cached value (absent or
empty record) triggers the API fetch and a cache write; the three grade
fields are then taken with .get defaults. -/
def fetchHistoricData (net : Network) (location : List String) (rec0 : CourseRec)
    (fs : FS) : Except String CourseRec × FS × List NetCall :=
  match outputRead fs "data" location "historic" with
  | (.error e, fs1) => (.error e, fs1, [])
  | (.ok hOpt, fs1) =>
      let hMiss : Bool := match hOpt with
        | none => true
        | some h => h.isEmpty
      let historicData : JsonObj := if hMiss then net.historicJson else hOpt.getD []
      let fs2 := if hMiss then
          outputWrite fs1 "data" location "historic" (.record net.historicJson)
        else fs1
      let histCalls : List NetCall := if hMiss then [.historic] else []
      (.ok (histFill rec0 historicData), fs2, histCalls)

/-- __fetch_confirmation_rates: cache-first per grade; the ucas_id is
stamped into the map and the map is always written back. -/
def fetchConfirmationRates (cfg : AcqConfig) (net : Network) (ucasId : String)
    (location : List String) (fs : FS) : Except String JsonObj × FS × List NetCall :=
  match outputRead fs "data" location "confirmation_rates" with
  | (.error e, fs1) => (.error e, fs1, [])
  | (.ok cOpt, fs1) =>
      let m0 := cOpt.getD []
      match confLoop net (predictedGradesList cfg) m0 with
      | (.error e, calls) => (.error e, fs1, calls)
      | (.ok m1, calls) =>
          let m2 := objInsert m1 "ucas_id" (.str ucasId)
          (.ok m2, outputWrite fs1 "data" location "confirmation_rates" (.record m2), calls)

/-- CourseAcquirer.process: unconditional details fetch and cache write,
then cache-first historic fetch, then per-grade cache-first confirmation
fetches.  Returns the assembled record and confirmation map, the
filesystem, and the network calls issued in order. -/
def processEntity (cfg : AcqConfig) (net : Network) (idOrUrl : String) (fs : FS) :
    Except String (CourseRec × JsonObj) × FS × List NetCall :=
  let ucasId := parseCourseId idOrUrl
  match fetchBasicDetails cfg net ucasId fs with
  | (.error e, fs1) => (.error e, fs1, [.detail])
  | (.ok (rec0, location), fs1) =>
      match fetchHistoricData net location rec0 fs1 with
      | (.error e, fs2, hc) => (.error e, fs2, .detail :: hc)
      | (.ok rec1, fs2, hc) =>
          match fetchConfirmationRates cfg net (parseCourseId idOrUrl) location fs2 with
          | (.error e, fs3, cc) => (.error e, fs3, .detail :: (hc ++ cc))
          | (.ok m2, fs3, cc) => (.ok (rec1, m2), fs3, .detail :: (hc ++ cc))

/-! ## SearchService pagination (src/v3/acquirers/course_search.py)

__collect_course_ids: page starts at 0 and is incremented before each
fetch; the loop stops when a page contributes no course ids.
__process_page: an integer response (non-200 status) yields no ids; a
bytes response is handed to the HTML parser collaborator, modelled as the
pure function `parse`. -/

def processPage (parse : List Nat → List String) : FetchResult → List String
  | .code _ => []
  | .payload b => parse b

/-- The while-loop, with fuel to make the (possibly non-terminating)
Python loop a total function.  Returns the collected ids and how many
pages were fetched, or none if the fuel ran out. -/
def collectLoop (fetchPage : Nat → FetchResult) (parse : List Nat → List String) :
    Nat → Nat → List String → Option (List String × Nat)
  | 0, _, _ => none
  | fuel + 1, page, acc =>
      let newIds := processPage parse (fetchPage (page + 1))
      if newIds.isEmpty then some (acc, page + 1)
      else collectLoop fetchPage parse fuel (page + 1) (acc ++ newIds)

def collectCourseIds (fetchPage : Nat → FetchResult) (parse : List Nat → List String)
    (fuel : Nat) : Option (List String × Nat) :=
  collectLoop fetchPage parse fuel 0 []

/-- The ids contributed by pages start+1, start+2, ..., start+d in order. -/
def idsRange (fetchPage : Nat → FetchResult) (parse : List Nat → List String) :
    Nat → Nat → List String
  | _, 0 => []
  | start, d + 1 =>
      processPage parse (fetchPage (start + 1)) ++ idsRange fetchPage parse (start + 1) d

/-- Full path of the JSON document `D` of `location` under store `top`. -/
def jsonPath (top : String) (L : List String) (D : String) : List String :=
  top :: sanitizedLocation L ++ [D ++ ".json"]

/-- `p` lies inside the directory tree rooted at `base`. -/
def withinTree (base p : List String) : Prop :=
  ∃ rest, p = base ++ rest

/-! ## A concrete fully-cached entity (for the acquirer claims) -/

def cfgC : AcqConfig := ⟨"ABC,DEF", "2025"⟩

/-- A minimal well-formed details API response. -/
def detailC : JsonObj :=
  [("course", .obj [
    ("applicationCode", .str "AC"),
    ("provider", .obj [("institutionCode", .str "I"), ("providerSort", .str "P"),
      ("name", .str "Prov")]),
    ("options", .arr [.obj [
      ("location", .obj [("name", .str "L")]),
      ("providerCourseUrl", .str "u"),
      ("outcomeQualification", .obj [("caption", .str "BSc")]),
      ("studyMode", .obj [("caption", .str "Full")]),
      ("duration", .obj [("quantity", .num 3),
        ("durationType", .obj [("caption", .str "Years")])]),
      ("academicEntryRequirements", .obj [("qualifications", .arr [])])]]),
    ("courseTitle", .str "T")])]

def historicC : JsonObj := [("mostCommonGrade", .str "A")]

def netC : Network := ⟨detailC, historicC, fun _ => [("results", .arr [])]⟩

def locC : List String := ["providers", "P", "T", "BSc", "2025"]

/-- A cache already holding the detail, historic, and confirmation-rate
documents (with every configured grade) for the entity. -/
def fsC : FS :=
  ⟨[],
   [("data" :: locC ++ ["course.json"], .jsonF detailC),
    ("data" :: locC ++ ["historic.json"], .jsonF historicC),
    ("data" :: locC ++ ["confirmation_rates.json"],
      .jsonF [("ABC", .str "1"), ("DEF", .str "2")])]⟩

/-- The record the acquirer assembles from detailC/historicC. -/
def recC : CourseRec :=
  { ucasId := "id0", courseCode := .str "AC", institutionCode := .str "I",
    location := .str "L", providerSort := .str "P", providerUrl := .str "u",
    provider := .str "Prov", qualification := .str "BSc", studyMode := .str "Full",
    title := .str "T", duration := "3 Years", aLevelText := .str "",
    aLevel := .bool false, ucasTariffText := .str "", ucasTariff := .bool false,
    mostCommonGrade := .str "A", minimumGrade := .str "", maximumGrade := .str "" }

def confC : JsonObj := [("ABC", .str "1"), ("DEF", .str "2"), ("ucas_id", .str "id0")]

/-- The store as the first run over fsC leaves it. -/
def fsAC : FS :=
  ⟨[["data"], ["data", "providers"], ["data", "providers", "P"],
    ["data", "providers", "P", "T"], ["data", "providers", "P", "T", "BSc"],
    ["data", "providers", "P", "T", "BSc", "2025"]],
   [("data" :: locC ++ ["course.json"], .jsonF detailC),
    ("data" :: locC ++ ["historic.json"], .jsonF historicC),
    ("data" :: locC ++ ["confirmation_rates.json"], .jsonF confC)]⟩

/-! # Theorems -/

/-! ## Retry loop lemmas -/

theorem requestLoop_allTransient (attempts : Nat → Attempt) :
    ∀ (r idx : Nat), (∀ i, i < r → attempts (idx + i) = .transient) →
      requestLoop attempts idx r = (none, r) := by
  intro r
  induction r with
  | zero => intro idx _; rfl
  | succ n ih =>
      intro idx h
      have h0 : attempts idx = .transient := by
        have := h 0 (Nat.succ_pos n)
        simpa using this
      have hrec := ih (idx + 1) (fun i hi => by
        have hh := h (i + 1) (by omega)
        have e : idx + (i + 1) = idx + 1 + i := by omega
        rw [e] at hh
        exact hh)
      simp [requestLoop, h0, hrec]

theorem requestLoop_successAt (attempts : Nat → Attempt) (st : Nat) (c : List Nat)
    (t : String) :
    ∀ (j idx r : Nat), (∀ i, i < j → attempts (idx + i) = .transient) →
      attempts (idx + j) = .response st c t → j < r →
      requestLoop attempts idx r = (some (processResponse st (some c) (some t)), j) := by
  intro j
  induction j with
  | zero =>
      intro idx r h hresp hj
      obtain ⟨r1, rfl⟩ : ∃ r1, r = r1 + 1 := ⟨r - 1, by omega⟩
      have h0 : attempts idx = .response st c t := by simpa using hresp
      simp [requestLoop, h0]
  | succ n ih =>
      intro idx r h hresp hj
      obtain ⟨r1, rfl⟩ : ∃ r1, r = r1 + 1 := ⟨r - 1, by omega⟩
      have h0 : attempts idx = .transient := by
        have := h 0 (Nat.succ_pos n)
        simpa using this
      have hrec := ih (idx + 1) r1
        (fun i hi => by
          have hh := h (i + 1) (by omega)
          have e : idx + (i + 1) = idx + 1 + i := by omega
          rw [e] at hh
          exact hh)
        (by
          have e : idx + (n + 1) = idx + 1 + n := by omega
          rw [e] at hresp
          exact hresp)
        (by omega)
      simp [requestLoop, h0, hrec]

/-- C2: a URI whose every attempt up to maxRetries raises a transient
transport error makes fetch raise the terminal HttpError (no value is
returned), appends exactly one line containing the URI to the error
ledger, and creates the ledger's parent directory. -/
theorem fetchExhaustionLogsUri (maxRetries : Nat) (attempts : Nat → Attempt)
    (uri : String) (ledger0 : List String)
    (h : ∀ i, i < maxRetries → attempts i = .transient) :
    request maxRetries attempts uri ledger0 =
      ⟨.error ("Failed to fetch " ++ uri ++ " after " ++ toString maxRetries ++ " attempts"),
        maxRetries, maxRetries, ledger0 ++ [uri ++ "\n"], true⟩ := by
  have hloop := requestLoop_allTransient attempts maxRetries 0 (fun i hi => by
    simpa using h i hi)
  simp [request, hloop]

/-- Witness for C2 at maxRetries = 2. -/
theorem fetchExhaustionLogsUriWitness :
    request 2 (fun _ => .transient) "https://x" [] =
      ⟨.error "Failed to fetch https://x after 2 attempts", 2, 2, ["https://x\n"], true⟩ :=
  fetchExhaustionLogsUri 2 (fun _ => .transient) "https://x" [] (fun _ _ => rfl)

/-- C3: transient failures on attempts 1..k-1 and an HTTP 200 on attempt k
(k ≤ maxRetries) make fetch return Success with exactly the response body
bytes, after exactly k-1 backoff sleeps and k-1 connection recreations,
without touching the error ledger. -/
theorem fetchRetriesThenSuccess (maxRetries k : Nat) (attempts : Nat → Attempt)
    (uri : String) (ledger0 : List String) (body : List Nat) (text : String)
    (hk1 : 1 ≤ k) (hk2 : k ≤ maxRetries)
    (htr : ∀ i, i < k - 1 → attempts i = .transient)
    (hresp : attempts (k - 1) = .response 200 body text) :
    request maxRetries attempts uri ledger0 =
      ⟨.ok (.payload body), k - 1, k - 1, ledger0, false⟩ := by
  have hloop := requestLoop_successAt attempts 200 body text (k - 1) 0 maxRetries
    (fun i hi => by simpa using htr i hi) (by simpa using hresp) (by omega)
  have hpr : processResponse 200 (some body) (some text) = (.payload body, [" ✅"]) := by
    simp [processResponse]
  simp [request, hloop, hpr]

/-- Witness for C3: success on attempt 2 of 3, one backoff sleep. -/
theorem fetchRetriesThenSuccessWitness :
    request 3 (fun i => if i = 0 then .transient else .response 200 [7, 9] "ok")
      "https://y" [] = ⟨.ok (.payload [7, 9]), 1, 1, [], false⟩ :=
  fetchRetriesThenSuccess 3 2 (fun i => if i = 0 then .transient else .response 200 [7, 9] "ok")
    "https://y" [] [7, 9] "ok" (by omega) (by omega)
    (fun i hi => by
      have hi0 : i = 0 := by omega
      subst hi0
      rfl)
    rfl

/-! ## Rate limiter lemmas -/

theorem applyRateLimit_single_under (c : String) (N S j : Nat) (h : j + 1 ≤ N) :
    applyRateLimit [(c, ⟨N, S, j⟩)] c = .ok ([(c, ⟨N, S, j + 1⟩)], 0) := by
  have hlt : ¬ (N < j + 1) := by omega
  simp [applyRateLimit, lookupLimit, updateLimit, hlt]

theorem acquireTimes_fill (c : String) (N S : Nat) :
    ∀ (k j : Nat), j + k ≤ N →
      acquireTimes c k [(c, ⟨N, S, j⟩)] = some ([(c, ⟨N, S, j + k⟩)], List.replicate k 0) := by
  intro k
  induction k with
  | zero => intro j _; simp [acquireTimes]
  | succ n ih =>
      intro j h
      have hstep := applyRateLimit_single_under c N S j (by omega)
      have hrec := ih (j + 1) (by omega)
      rw [show j + (n + 1) = j + 1 + n from by omega]
      simp [acquireTimes, hstep, hrec, List.replicate_succ]

theorem applyRateLimit_single_over (c : String) (N S : Nat) :
    applyRateLimit [(c, ⟨N, S, N⟩)] c = .ok ([(c, ⟨N, S, 0⟩)], S) := by
  have hlt : N < N + 1 := by omega
  simp [applyRateLimit, lookupLimit, updateLimit, hlt]

/-- C4: with a channel budget (allowed = N, window = S) starting at
counter 0, the first N acquires each return with no sleep (the counter
reaching N), the (N+1)th acquire sleeps exactly S (hence at least S) and
leaves the counter at 0, and an unknown channel name raises KeyError
before any counter is touched. -/
theorem rateLimiterWindowBehavior (c : String) (N S : Nat) :
    acquireTimes c N [(c, ⟨N, S, 0⟩)] = some ([(c, ⟨N, S, N⟩)], List.replicate N 0)
    ∧ applyRateLimit [(c, ⟨N, S, N⟩)] c = .ok ([(c, ⟨N, S, 0⟩)], S)
    ∧ ∀ (limits : List (String × RateLimit)) (u : String),
        lookupLimit limits u = none →
        applyRateLimit limits u = .error ("Rate limit type " ++ u ++ " not found") := by
  refine ⟨?_, applyRateLimit_single_over c N S, fun limits u h => by simp [applyRateLimit, h]⟩
  have := acquireTimes_fill c N S N 0 (by omega)
  simpa using this

/-- Witness for C4 at the configured default budget (10 requests / 60 s). -/
theorem rateLimiterWindowBehaviorWitness :
    acquireTimes "universal" 10 [("universal", ⟨10, 60, 0⟩)] =
      some ([("universal", ⟨10, 60, 10⟩)], List.replicate 10 0)
    ∧ applyRateLimit [("universal", ⟨10, 60, 10⟩)] "universal" =
      .ok ([("universal", ⟨10, 60, 0⟩)], 60)
    ∧ applyRateLimit [] "nope" = .error "Rate limit type nope not found" := by
  obtain ⟨h1, h2, h3⟩ := rateLimiterWindowBehavior "universal" 10 60
  exact ⟨h1, h2, h3 [] "nope" rfl⟩

/-! ## Response classification -/

/-- C5 counterexample: a 500 response with an empty body is classified as
the bare status code with no diagnostic output at all -- no excerpt is
carried anywhere, against the claim that every non-200/404 outcome carries
a diagnostic excerpt. -/
theorem responseEmptyBodyNoDiagnostic :
    (processResponse 500 (some []) (some "")).1 = .code 500 ∧
    (processResponse 500 (some []) (some "")).2 = [] := ⟨rfl, rfl⟩

/-- C5 (amended): 200 yields Success with the body bytes; 404 yields the
bare 404 status; any other status yields the status code, and when the
response text is non-empty it is accompanied by a diagnostic excerpt with
whitespace runs collapsed to single spaces and truncated to 79 characters
-- an empty or missing text produces no excerpt. -/
theorem responseClassification (status : Nat) (content : Option (List Nat))
    (text : Option String) :
    (status = 200 →
      processResponse status content text = (.payload (content.getD []), [" ✅"]))
    ∧ (status ≠ 200 → status = 404 →
      processResponse status content text = (.code 404, [" - doesn't exist"]))
    ∧ (∀ t, status ≠ 200 → status ≠ 404 → text = some t → t ≠ "" →
      processResponse status content text =
        (.code status, [" ❌ " ++ toString status ++ ": " ++ diagExcerpt t]))
    ∧ (status ≠ 200 → status ≠ 404 → (text = none ∨ text = some "") →
      processResponse status content text = (.code status, [])) := by
  refine ⟨fun h200 => by simp [processResponse, h200], fun h200 h404 => by
    simp [processResponse, h200, h404], fun t h200 h404 ht hne => by
    simp [processResponse, h200, h404, ht, hne], fun h200 h404 ht => by
    rcases ht with h | h <;> simp [processResponse, h200, h404, h]⟩

/-- Witness for C5 on a 503 with a messy body. -/
theorem responseClassificationWitness :
    processResponse 503 (some [1]) (some "Server  error\n\tdetail") =
      (.code 503, [" ❌ 503: Server error detail"]) := by
  have h := (responseClassification 503 (some [1]) (some "Server  error\n\tdetail")).2.2.1
    "Server  error\n\tdetail" (by omega) (by omega) rfl (by decide)
  rw [h]
  rfl

/-! ## Filesystem lemmas -/

theorem pathLookup_insert_self (files : List (List String × FileData)) (p : List String)
    (d : FileData) : pathLookup (pathInsert files p d) p = some d := by
  induction files with
  | nil => simp [pathInsert, pathLookup]
  | cons e rest ih =>
      obtain ⟨q, v⟩ := e
      by_cases h : q = p
      · simp [pathInsert, pathLookup, h]
      · simp [pathInsert, pathLookup, h, ih]

theorem pathLookup_insert_ne (files : List (List String × FileData)) (p q : List String)
    (d : FileData) (h : p ≠ q) :
    pathLookup (pathInsert files p d) q = pathLookup files q := by
  induction files with
  | nil => simp [pathInsert, pathLookup, h]
  | cons e rest ih =>
      obtain ⟨x, v⟩ := e
      by_cases hx : x = p
      · subst hx
        simp [pathInsert, pathLookup, h]
      · by_cases hq : x = q
        · subst hq
          simp [pathInsert, pathLookup, hx, Ne.symm h]
        · simp [pathInsert, pathLookup, hx, hq, ih]

theorem pathInsert_same (files : List (List String × FileData)) (p : List String)
    (d : FileData) (h : pathLookup files p = some d) :
    pathInsert files p d = files := by
  induction files with
  | nil => simp [pathLookup] at h
  | cons e rest ih =>
      obtain ⟨x, v⟩ := e
      by_cases hx : x = p
      · subst hx
        simp [pathLookup] at h
        simp [pathInsert, h]
      · simp [pathLookup, hx] at h
        simp [pathInsert, hx, ih h]

theorem mkdirs_files (fs : FS) (p : List String) : (mkdirs fs p).files = fs.files := rfl

theorem pathMem_iff (l : List (List String)) (p : List String) :
    pathMem l p = true ↔ p ∈ l := by
  induction l with
  | nil => simp [pathMem]
  | cons q rest ih =>
      by_cases h : q = p
      · subst h
        simp [pathMem]
      · simp [pathMem, h, ih, Ne.symm h]

theorem pathMem_append (a b : List (List String)) (p : List String) :
    pathMem (a ++ b) p = (pathMem a p || pathMem b p) := by
  induction a with
  | nil => simp [pathMem]
  | cons q rest ih =>
      by_cases h : q = p <;> simp [pathMem, h, ih]

theorem mem_listAncestry_self (p : List String) (h : p ≠ []) : p ∈ listAncestry p := by
  induction p with
  | nil => simp at h
  | cons x rest ih =>
      by_cases hr : rest = []
      · subst hr
        simp [listAncestry]
      · refine List.mem_cons_of_mem _ ?_
        exact List.mem_map_of_mem _ (ih hr)

theorem mkdirs_mem (fs : FS) (p q : List String) (hq : q ∈ listAncestry p) :
    pathMem (mkdirs fs p).dirs q = true := by
  simp only [mkdirs, pathMem_append]
  by_cases h : pathMem fs.dirs q
  · simp [h]
  · have : q ∈ (listAncestry p).filter (fun x => !pathMem fs.dirs x) :=
      List.mem_filter.mpr ⟨hq, by simp [h]⟩
    simp [(pathMem_iff _ _).mpr this]

theorem mkdirs_mem_self (fs : FS) (p : List String) (h : p ≠ []) :
    pathMem (mkdirs fs p).dirs p = true :=
  mkdirs_mem fs p p (mem_listAncestry_self p h)

theorem pathMem_mono_mkdirs (fs : FS) (p q : List String)
    (h : pathMem fs.dirs q = true) : pathMem (mkdirs fs p).dirs q = true := by
  simp [mkdirs, pathMem_append, h]

theorem mkdirs_noop (fs : FS) (p : List String)
    (h : ∀ q ∈ listAncestry p, pathMem fs.dirs q = true) : mkdirs fs p = fs := by
  have hf : (listAncestry p).filter (fun x => !pathMem fs.dirs x) = [] := by
    apply List.filter_eq_nil_iff.mpr
    intro q hq
    simp [h q hq]
  simp [mkdirs, hf]

theorem mkdirs_mkdirs (fs : FS) (p : List String) :
    mkdirs (mkdirs fs p) p = mkdirs fs p :=
  mkdirs_noop _ p (fun q hq => mkdirs_mem fs p q hq)

theorem readCore_snd (fs : FS) (top : String) (L : List String) (D : String) :
    (readCore fs top L D).2 = mkdirs fs (top :: sanitizedLocation L) := rfl

theorem readCore_absent (fs : FS) (top : String) (L : List String) (D : String)
    (h : pathLookup fs.files (jsonPath top L D) = none) :
    readCore fs top L D = (.absent, mkdirs fs (top :: sanitizedLocation L)) := by
  unfold readCore createFolderPath
  simp only [mkdirs_files]
  rw [show (top :: sanitizedLocation L) ++ [D ++ ".json"] = jsonPath top L D from rfl, h]

theorem readCore_found (fs : FS) (top : String) (L : List String) (D : String) (o : JsonObj)
    (h2 : ¬ L.length < 2)
    (h : pathLookup fs.files (jsonPath top L D) = some (.jsonF o)) :
    readCore fs top L D = (.found o, mkdirs fs (top :: sanitizedLocation L)) := by
  unfold readCore createFolderPath
  simp only [mkdirs_files]
  rw [show (top :: sanitizedLocation L) ++ [D ++ ".json"] = jsonPath top L D from rfl, h]
  simp [h2]

theorem readCore_badJson (fs : FS) (top : String) (L : List String) (D : String)
    (raw : String) (h2 : ¬ L.length < 2)
    (h : pathLookup fs.files (jsonPath top L D) = some (.badJson raw)) :
    readCore fs top L D = (.decodeFail, mkdirs fs (top :: sanitizedLocation L)) := by
  unfold readCore createFolderPath
  simp only [mkdirs_files]
  rw [show (top :: sanitizedLocation L) ++ [D ++ ".json"] = jsonPath top L D from rfl, h]
  simp [h2]

theorem outputWrite_record (fs : FS) (top : String) (L : List String) (D : String)
    (o : JsonObj) :
    outputWrite fs top L D (.record o) =
      ⟨(mkdirs fs (top :: sanitizedLocation L)).dirs,
        pathInsert fs.files (jsonPath top L D) (.jsonF o)⟩ := rfl

theorem outputRead_found (fs : FS) (top : String) (L : List String) (D : String)
    (o : JsonObj) (h2 : ¬ L.length < 2)
    (h : pathLookup fs.files (jsonPath top L D) = some (.jsonF o)) :
    outputRead fs top L D = (.ok (some o), mkdirs fs (top :: sanitizedLocation L)) := by
  rw [outputRead, readCore_found fs top L D o h2 h]

theorem outputRead_absent (fs : FS) (top : String) (L : List String) (D : String)
    (h : pathLookup fs.files (jsonPath top L D) = none) :
    outputRead fs top L D = (.ok none, mkdirs fs (top :: sanitizedLocation L)) := by
  rw [outputRead, readCore_absent fs top L D h]

/-! ## Cache round trip and fallback -/

/-- C6 counterexample: writing a record at the empty location and reading
it back (fallback disabled) raises IndexError -- the progress print indexes
location[1] before json.load runs -- instead of returning the record. -/
theorem cacheRoundTripEmptyLocationRaises :
    (fhRead (fhWrite ⟨[], []⟩ "data" [] "doc" (.record [("k", .str "v")]))
      "data" [] "doc" false).1 = .error "IndexError" := rfl

/-- C6 (amended): for every location with at least two segments, writing a
structured record and reading it back with fallback disabled returns a
value deep-equal to the record written; locations with fewer than two
segments instead raise IndexError from the diagnostic print. -/
theorem cacheRoundTrip (fs : FS) (top : String) (L : List String) (D : String)
    (o : JsonObj) (h2 : 2 ≤ L.length) :
    (fhRead (fhWrite fs top L D (.record o)) top L D false).1 = .ok (some o) := by
  have hw : (fhWrite fs top L D (.record o)).files =
      pathInsert fs.files (jsonPath top L D) (.jsonF o) := rfl
  have hl : pathLookup (fhWrite fs top L D (.record o)).files (jsonPath top L D) =
      some (.jsonF o) := by
    rw [hw]
    exact pathLookup_insert_self _ _ _
  have hc := readCore_found _ top L D o (by omega) hl
  simp [fhRead, hc]

/-- Witness for C6 at a two-segment location. -/
theorem cacheRoundTripWitness :
    (fhRead (fhWrite ⟨[], []⟩ "data" ["prov", "title"] "course"
      (.record [("k", .str "v")])) "data" ["prov", "title"] "course" false).1 =
      .ok (some [("k", .str "v")]) :=
  cacheRoundTrip ⟨[], []⟩ "data" ["prov", "title"] "course" [("k", .str "v")] (by decide)

/-- C7 counterexample: a document absent from both the current and the
prior-version store makes read return the empty record some {}, not the
None "not present" value that the fallback-disabled read uses. -/
theorem fallbackAbsentBothReturnsEmptyRecord :
    (fhRead ⟨[], []⟩ "data" ["a", "b"] "doc" true).1 = .ok (some []) ∧
    (Except.ok (some ([] : JsonObj)) : Except String (Option JsonObj)) ≠ .ok none := by
  refine ⟨rfl, fun h => ?_⟩
  injection h with h1
  exact Option.noConfusion h1

/-- C7 (amended), for locations with at least two segments: a document
absent from the current store but present in the prior-version store is
returned from there without copying any file forward; absent from both
stores the read returns the empty record (falsy, treated as absent by
callers) rather than None; a present document that fails to deserialize
yields None without raising and without consulting the fallback. -/
theorem fallbackReadBehavior (fs : FS) (top : String) (L : List String) (D : String)
    (o : JsonObj) (raw : String) :
    (2 ≤ L.length →
      pathLookup fs.files (jsonPath top L D) = none →
      pathLookup fs.files (jsonPath "v1.1" L D) = some (.jsonF o) →
      (fhRead fs top L D true).1 = .ok (some o)
      ∧ ((fhRead fs top L D true).2).files = fs.files)
    ∧ (pathLookup fs.files (jsonPath top L D) = none →
      pathLookup fs.files (jsonPath "v1.1" L D) = none →
      (fhRead fs top L D true).1 = .ok (some []))
    ∧ (2 ≤ L.length →
      pathLookup fs.files (jsonPath top L D) = some (.badJson raw) →
      (fhRead fs top L D true).1 = .ok none) := by
  refine ⟨fun h2 habs hprior => ?_, fun habs hprior => ?_, fun h2 hbad => ?_⟩
  · have hc := readCore_absent fs top L D habs
    have hc2 := readCore_found (mkdirs (mkdirs fs (top :: sanitizedLocation L)) ["v1.1"])
      "v1.1" L D o (by omega) hprior
    simp [fhRead, hc, hc2, mkdirs_files]
  · have hc := readCore_absent fs top L D habs
    have hc2 := readCore_absent (mkdirs (mkdirs fs (top :: sanitizedLocation L)) ["v1.1"])
      "v1.1" L D hprior
    simp [fhRead, hc, hc2]
  · have hc := readCore_badJson fs top L D raw (by omega) hbad
    simp [fhRead, hc]

/-- Witness for C7: the document lives only in the v1.1 store. -/
theorem fallbackReadBehaviorWitness :
    (fhRead ⟨[], [(jsonPath "v1.1" ["a", "b"] "doc", .jsonF [("x", .num 1)])]⟩
      "data" ["a", "b"] "doc" true).1 = .ok (some [("x", .num 1)])
    ∧ ((fhRead ⟨[], [(jsonPath "v1.1" ["a", "b"] "doc", .jsonF [("x", .num 1)])]⟩
      "data" ["a", "b"] "doc" true).2).files =
      [(jsonPath "v1.1" ["a", "b"] "doc", .jsonF [("x", .num 1)])] :=
  (fallbackReadBehavior ⟨[], [(jsonPath "v1.1" ["a", "b"] "doc", .jsonF [("x", .num 1)])]⟩
    "data" ["a", "b"] "doc" [("x", .num 1)] "").1 (by decide) rfl rfl

/-! ## Sanitization and path containment -/

theorem sanitizeChars_noSep (l : List Char) :
    '/' ∉ sanitizeChars l ∧ '\\' ∉ sanitizeChars l := by
  induction l with
  | nil => simp [sanitizeChars]
  | cons c rest ih =>
      by_cases h1 : c = '\\'
      · simpa [sanitizeChars, h1] using ih
      · by_cases h2 : c = '/'
        · refine ⟨?_, ?_⟩ <;> simp [sanitizeChars, h1, h2, ih.1, ih.2]
        · refine ⟨?_, ?_⟩ <;> simp [sanitizeChars, h1, h2, ih.1, ih.2]
          · exact fun hc => h2 hc.symm
          · exact fun hc => h1 hc.symm

theorem resolve_extends (segs : List String) :
    ∀ (acc base : List String), (∀ s ∈ segs, s ≠ "..") → (∃ r, acc = base ++ r) →
      ∃ r, segs.foldl resolveStep acc = base ++ r := by
  induction segs with
  | nil =>
      intro acc base _ h
      simpa using h
  | cons s rest ih =>
      intro acc base hs hacc
      obtain ⟨r, rfl⟩ := hacc
      apply ih _ base (fun x hx => hs x (List.mem_cons_of_mem _ hx))
      unfold resolveStep
      by_cases h1 : s = ""
      · exact ⟨r, by simp [h1]⟩
      · by_cases h2 : s = "."
        · exact ⟨r, by simp [h1, h2]⟩
        · have h3 : s ≠ ".." := hs s (List.mem_cons_self _ _)
          exact ⟨r ++ [s], by simp [h1, h2, h3]⟩

/-- C8 counterexample: the segment ".." passes sanitization unchanged and
the resulting physical path escapes the store's directory tree. -/
theorem sanitizationDotDotEscapes :
    sanitizedLocation [".."] = [".."]
    ∧ resolvePath ["tmp", "data"] [".."] = ["tmp"]
    ∧ ¬ withinTree ["tmp", "data"] ["tmp"] := by
  refine ⟨rfl, rfl, ?_⟩
  rintro ⟨r, hr⟩
  have hl := congrArg List.length hr
  simp at hl

/-- C8 (amended): sanitization removes every path separator and escape
character from each segment, equal sanitized segment sequences always
resolve to the same physical location, and -- provided no segment
sanitizes to ".." -- the resolved physical path stays inside the store's
directory tree.  A ".." segment survives sanitization and escapes. -/
theorem sanitizationInvariant (base : List String) (L : List String) (comp : String)
    (h : ∀ s ∈ sanitizedLocation L, s ≠ "..") :
    ('/' ∉ (sanitizeComponent comp).data ∧ '\\' ∉ (sanitizeComponent comp).data)
    ∧ (∀ (L2 : List String) (fs : FS) (top : String),
        sanitizedLocation L = sanitizedLocation L2 →
        createFolderPath fs top L = createFolderPath fs top L2)
    ∧ withinTree base (resolvePath base (sanitizedLocation L)) := by
  refine ⟨sanitizeChars_noSep comp.data, fun L2 fs top heq => ?_, ?_⟩
  · unfold createFolderPath
    rw [heq]
  · exact resolve_extends (sanitizedLocation L) base base h ⟨[], by simp⟩

/-- Witness for C8 on segments containing separators and escapes. -/
theorem sanitizationInvariantWitness :
    ('/' ∉ (sanitizeComponent "a/b\\c").data ∧ '\\' ∉ (sanitizeComponent "a/b\\c").data)
    ∧ (∀ (L2 : List String) (fs : FS) (top : String),
        sanitizedLocation ["x/y", "z"] = sanitizedLocation L2 →
        createFolderPath fs top ["x/y", "z"] = createFolderPath fs top L2)
    ∧ withinTree ["tmp", "data"] (resolvePath ["tmp", "data"] (sanitizedLocation ["x/y", "z"])) :=
  sanitizationInvariant ["tmp", "data"] ["x/y", "z"] "a/b\\c" (by decide)

/-! ## Pagination -/

theorem collectLoop_run (fetchPage : Nat → FetchResult) (parse : List Nat → List String) :
    ∀ (d fuel page : Nat) (acc : List String),
      (∀ i, page < i → i < page + d + 1 → processPage parse (fetchPage i) ≠ []) →
      processPage parse (fetchPage (page + d + 1)) = [] →
      d + 1 ≤ fuel →
      collectLoop fetchPage parse fuel page acc =
        some (acc ++ idsRange fetchPage parse page d, page + d + 1) := by
  intro d
  induction d with
  | zero =>
      intro fuel page acc hne hemp hfuel
      obtain ⟨f, rfl⟩ : ∃ f, fuel = f + 1 := ⟨fuel - 1, by omega⟩
      have h1 : processPage parse (fetchPage (page + 1)) = [] := by simpa using hemp
      simp [collectLoop, h1, idsRange]
  | succ n ih =>
      intro fuel page acc hne hemp hfuel
      obtain ⟨f, rfl⟩ : ∃ f, fuel = f + 1 := ⟨fuel - 1, by omega⟩
      have h1 : processPage parse (fetchPage (page + 1)) ≠ [] :=
        hne (page + 1) (by omega) (by omega)
      have hrec := ih f (page + 1) (acc ++ processPage parse (fetchPage (page + 1)))
        (fun i hi1 hi2 => hne i (by omega) (by omega))
        (by
          have e : page + 1 + n + 1 = page + (n + 1) + 1 := by omega
          rw [e]
          exact hemp)
        (by omega)
      have hne2 : (processPage parse (fetchPage (page + 1))).isEmpty = false := by
        cases hp : processPage parse (fetchPage (page + 1)) with
        | nil => exact absurd hp h1
        | cons a l => rfl
      have e2 : page + 1 + n + 1 = page + (n + 1) + 1 := by omega
      rw [e2] at hrec
      simp only [collectLoop, hne2, Bool.false_eq_true, if_false, hrec, idsRange]
      rw [List.append_assoc]

/-- C9: the crawl over one search term starts at page 1, advances by one
page after each page whose extracted set is non-empty, and terminates
exactly at the first page whose extracted set is empty, having fetched
exactly k pages and collected the ids of pages 1..k-1. -/
theorem paginationStopsAtEmptyPage (fetchPage : Nat → FetchResult)
    (parse : List Nat → List String) (k fuel : Nat)
    (hk : 1 ≤ k) (hfuel : k ≤ fuel)
    (hne : ∀ i, 1 ≤ i → i < k → processPage parse (fetchPage i) ≠ [])
    (hemp : processPage parse (fetchPage k) = []) :
    collectCourseIds fetchPage parse fuel = some (idsRange fetchPage parse 0 (k - 1), k) := by
  have h := collectLoop_run fetchPage parse (k - 1) fuel 0 []
    (fun i h1 h2 => hne i (by omega) (by omega))
    (by
      rw [show 0 + (k - 1) + 1 = k from by omega]
      exact hemp)
    (by omega)
  rw [show 0 + (k - 1) + 1 = k from by omega] at h
  simpa [collectCourseIds] using h

/-- Witness for C9: a two-page catalogue (page 1 yields two entities,
page 2 yields none) fetches exactly 2 pages and collects exactly 2 ids. -/
theorem paginationStopsAtEmptyPageWitness :
    collectCourseIds (fun p => if p = 1 then .payload [0] else .payload [1])
      (fun b => if b = [0] then ["idA\n", "idB\n"] else []) 5 =
      some (["idA\n", "idB\n"], 2)
    ∧ (["idA\n", "idB\n"] : List String).length = 2 := by
  refine ⟨?_, rfl⟩
  have h := paginationStopsAtEmptyPage (fun p => if p = 1 then .payload [0] else .payload [1])
    (fun b => if b = [0] then ["idA\n", "idB\n"] else []) 2 5 (by omega) (by omega)
    (fun i h1 h2 => by
      have hi : i = 1 := by omega
      subst hi
      decide)
    (by decide)
  rw [h]
  rfl

/-! ## Read side effects on the directory tree -/

theorem fhRead_dirs (fs : FS) (top : String) (L : List String) (D : String) (fb : Bool) :
    pathMem ((fhRead fs top L D fb).2).dirs (top :: sanitizedLocation L) = true := by
  have hbase : pathMem (mkdirs fs (top :: sanitizedLocation L)).dirs
      (top :: sanitizedLocation L) = true :=
    mkdirs_mem_self _ _ (by simp)
  rcases hc : readCore fs top L D with ⟨rc, fs1⟩
  have hfs1 : fs1 = mkdirs fs (top :: sanitizedLocation L) := by
    have h := readCore_snd fs top L D
    rw [hc] at h
    exact h
  subst hfs1
  cases rc with
  | found o => simp [fhRead, hc, hbase]
  | decodeFail => simp [fhRead, hc, hbase]
  | indexErr => simp [fhRead, hc, hbase]
  | absent =>
      cases fb with
      | false => simp [fhRead, hc, hbase]
      | true =>
          rcases hc2 : readCore (mkdirs (mkdirs fs (top :: sanitizedLocation L)) ["v1.1"])
              "v1.1" L D with ⟨rc2, fs2⟩
          have hfs2 : fs2 = mkdirs (mkdirs (mkdirs fs (top :: sanitizedLocation L)) ["v1.1"])
              ("v1.1" :: sanitizedLocation L) := by
            have h := readCore_snd (mkdirs (mkdirs fs (top :: sanitizedLocation L)) ["v1.1"])
              "v1.1" L D
            rw [hc2] at h
            exact h
          subst hfs2
          have hmem := pathMem_mono_mkdirs _ ("v1.1" :: sanitizedLocation L) _
            (pathMem_mono_mkdirs _ ["v1.1"] _ hbase)
          cases rc2 <;> simp [fhRead, hc, hc2, hmem]

theorem fhReadList_dirs (fs : FS) (top : String) (L : List String) (D : String) :
    pathMem ((fhReadList fs top L D).2).dirs (top :: sanitizedLocation L) = true := by
  have hbase : pathMem (mkdirs fs (top :: sanitizedLocation L)).dirs
      (top :: sanitizedLocation L) = true :=
    mkdirs_mem_self _ _ (by simp)
  rcases hp : pathLookup (mkdirs fs (top :: sanitizedLocation L)).files
      (top :: (sanitizedLocation L ++ [D])) with _ | fd <;>
    simp [fhReadList, createFolderPath, hp, hbase]

/-- C10: both read operations create the sanitized directory tree of the
requested location before looking the document up; a location whose
directory did not exist leaves the store's directory structure changed
even when read returns "not present" (fallback disabled) and read_list
returns the empty sequence. -/
theorem readsCreateLocationDirs (fs : FS) (top : String) (L : List String) (D : String)
    (fb : Bool) :
    pathMem ((fhRead fs top L D fb).2).dirs (top :: sanitizedLocation L) = true
    ∧ pathMem ((fhReadList fs top L D).2).dirs (top :: sanitizedLocation L) = true
    ∧ (pathMem fs.dirs (top :: sanitizedLocation L) = false →
        ((fhRead fs top L D fb).2).dirs ≠ fs.dirs)
    ∧ (pathLookup fs.files (jsonPath top L D) = none → fb = false →
        (fhRead fs top L D fb).1 = .ok none)
    ∧ (pathLookup fs.files ((top :: sanitizedLocation L) ++ [D]) = none →
        (fhReadList fs top L D).1 = []) := by
  refine ⟨fhRead_dirs fs top L D fb, fhReadList_dirs fs top L D,
    fun hno heq => ?_, fun habs hfb => ?_, fun habs => ?_⟩
  · have h := fhRead_dirs fs top L D fb
    rw [heq] at h
    rw [hno] at h
    exact Bool.noConfusion h
  · subst hfb
    have hc := readCore_absent fs top L D habs
    simp [fhRead, hc]
  · have hm : pathLookup (mkdirs fs (top :: sanitizedLocation L)).files
        (top :: (sanitizedLocation L ++ [D])) = none := by
      rw [mkdirs_files]
      simpa using habs
    simp [fhReadList, createFolderPath, hm]

/-- Witness for C10 on an empty store. -/
theorem readsCreateLocationDirsWitness :
    pathMem ((fhRead ⟨[], []⟩ "data" ["a"] "doc" false).2).dirs
      ("data" :: sanitizedLocation ["a"]) = true
    ∧ pathMem ((fhReadList ⟨[], []⟩ "data" ["a"] "doc").2).dirs
      ("data" :: sanitizedLocation ["a"]) = true
    ∧ ((fhRead ⟨[], []⟩ "data" ["a"] "doc" false).2).dirs ≠ ([] : List (List String))
    ∧ (fhRead ⟨[], []⟩ "data" ["a"] "doc" false).1 = .ok none
    ∧ (fhReadList ⟨[], []⟩ "data" ["a"] "doc").1 = [] := by
  obtain ⟨h1, h2, h3, h4, h5⟩ := readsCreateLocationDirs ⟨[], []⟩ "data" ["a"] "doc" false
  exact ⟨h1, h2, h3 rfl, h4 rfl rfl, h5 rfl⟩

/-! ## Dict and confirmation-loop lemmas -/

theorem objLookup_insert_self (m : JsonObj) (k : String) (v : JVal) :
    objLookup (objInsert m k v) k = some v := by
  induction m with
  | nil => simp [objInsert, objLookup]
  | cons e rest ih =>
      obtain ⟨x, w⟩ := e
      by_cases h : x = k
      · simp [objInsert, objLookup, h]
      · simp [objInsert, objLookup, h, ih]

theorem objLookup_insert_ne (m : JsonObj) (k g : String) (v : JVal) (h : k ≠ g) :
    objLookup (objInsert m k v) g = objLookup m g := by
  induction m with
  | nil => simp [objInsert, objLookup, h]
  | cons e rest ih =>
      obtain ⟨x, w⟩ := e
      by_cases hx : x = k
      · subst hx
        simp [objInsert, objLookup, h]
      · by_cases hg2 : x = g
        · subst hg2
          simp [objInsert, objLookup, hx]
        · simp [objInsert, objLookup, hx, hg2, ih]

theorem objMem_insert_self (m : JsonObj) (k : String) (v : JVal) :
    objMem (objInsert m k v) k = true := by
  simp [objMem, objLookup_insert_self]

theorem objMem_insert_of_mem (m : JsonObj) (k g : String) (v : JVal)
    (h : objMem m g = true) : objMem (objInsert m k v) g = true := by
  by_cases hkg : k = g
  · subst hkg
    exact objMem_insert_self m k v
  · unfold objMem at h ⊢
    rw [objLookup_insert_ne m k g v hkg]
    exact h

theorem objInsert_same (m : JsonObj) (k : String) (v : JVal)
    (h : objLookup m k = some v) : objInsert m k v = m := by
  induction m with
  | nil => simp [objLookup] at h
  | cons e rest ih =>
      obtain ⟨x, w⟩ := e
      by_cases hx : x = k
      · subst hx
        simp [objLookup] at h
        simp [objInsert, h]
      · simp [objLookup, hx] at h
        simp [objInsert, hx, ih h]

theorem confLoop_skip_all (net : Network) (gs : List String) (m : JsonObj)
    (h : ∀ g ∈ gs, objMem m g = true) : confLoop net gs m = (.ok m, []) := by
  induction gs with
  | nil => rfl
  | cons g rest ih =>
      have hg : objMem m g = true := h g (List.mem_cons_self _ _)
      simp [confLoop, hg, ih (fun x hx => h x (List.mem_cons_of_mem _ hx))]

theorem confLoop_ok_mem (net : Network) :
    ∀ (gs : List String) (m m1 : JsonObj) (calls : List NetCall),
      confLoop net gs m = (.ok m1, calls) →
      (∀ g, objMem m g = true → objMem m1 g = true) ∧ ∀ g ∈ gs, objMem m1 g = true := by
  intro gs
  induction gs with
  | nil =>
      intro m m1 calls h
      simp [confLoop] at h
      obtain ⟨h1, _⟩ := h
      subst h1
      exact ⟨fun g hg => hg, by simp⟩
  | cons g rest ih =>
      intro m m1 calls h
      by_cases hg : objMem m g = true
      · rw [confLoop, if_pos hg] at h
        obtain ⟨hmono, hall⟩ := ih m m1 calls h
        exact ⟨hmono, by
          intro x hx
          rcases List.mem_cons.mp hx with hx | hx
          · subst hx
            exact hmono x hg
          · exact hall x hx⟩
      · rw [confLoop, if_neg hg] at h
        cases hp : pluckRate (net.confJson g) with
        | error e =>
            rw [hp] at h
            exact absurd h (by simp)
        | ok r =>
            rw [hp] at h
            dsimp only at h
            rcases hcl : confLoop net rest (objInsert m g r) with ⟨res, cl⟩
            rw [hcl] at h
            simp only [Prod.mk.injEq] at h
            obtain ⟨h1, _⟩ := h
            subst h1
            obtain ⟨hmono, hall⟩ := ih (objInsert m g r) m1 cl hcl
            exact ⟨fun x hx => hmono x (objMem_insert_of_mem m g x r hx), by
              intro x hx
              rcases List.mem_cons.mp hx with hx | hx
              · subst hx
                exact hmono x (objMem_insert_self m x r)
              · exact hall x hx⟩

/-! ## Acquirer step lemmas -/

theorem outputWrite_noop (fs : FS) (top : String) (L : List String) (D : String)
    (o : JsonObj)
    (h1 : pathLookup fs.files (jsonPath top L D) = some (.jsonF o))
    (hd : mkdirs fs (top :: sanitizedLocation L) = fs) :
    outputWrite fs top L D (.record o) = fs := by
  rw [outputWrite_record, pathInsert_same _ _ _ h1, hd]

theorem outputRead_notJson (fs : FS) (top : String) (L : List String) (D : String)
    (fd : FileData)
    (hlen : ¬ L.length < 2)
    (h : pathLookup fs.files (jsonPath top L D) = some fd)
    (hfd : ∀ o, fd ≠ FileData.jsonF o) :
    outputRead fs top L D = (.ok none, mkdirs fs (top :: sanitizedLocation L)) := by
  have hc : readCore fs top L D = (.decodeFail, mkdirs fs (top :: sanitizedLocation L)) := by
    unfold readCore createFolderPath
    simp only [mkdirs_files]
    rw [show (top :: sanitizedLocation L) ++ [D ++ ".json"] = jsonPath top L D from rfl, h]
    cases fd with
    | jsonF o => exact absurd rfl (hfd o)
    | htmlF s => simp [hlen]
    | textF s => simp [hlen]
    | badJson s => simp [hlen]
  rw [outputRead, hc]

theorem jsonPath_ne (top : String) (L : List String) (D1 D2 : String)
    (h : D1 ++ ".json" ≠ D2 ++ ".json") : jsonPath top L D1 ≠ jsonPath top L D2 := by
  intro he
  unfold jsonPath at he
  injection he with hh ht
  have h2 := List.append_cancel_left ht
  injection h2 with h3 h4
  exact h h3

theorem locationOf_notShort (cfg : AcqConfig) (r : CourseRec) :
    ¬ (locationOf cfg r).length < 2 := by
  simp [locationOf]

/-- The heart of the amended C1: with the details extraction succeeding,
and the detail, (non-empty) historic, and confirmation documents all
cached at the entity location -- the confirmation map already holding every
configured grade and the stamped ucas_id -- processing issues exactly the
one unconditional detail network call and leaves the store untouched. -/
theorem processEntity_allCached (cfg : AcqConfig) (net : Network) (idOrUrl : String)
    (fs : FS) (rec0 : CourseRec) (H M : JsonObj)
    (hb : buildBasic (parseCourseId idOrUrl) net.detailJson = .ok rec0)
    (h1 : pathLookup fs.files (jsonPath "data" (locationOf cfg rec0) "course") =
      some (.jsonF net.detailJson))
    (h2 : pathLookup fs.files (jsonPath "data" (locationOf cfg rec0) "historic") =
      some (.jsonF H))
    (hHne : H ≠ [])
    (h3 : pathLookup fs.files (jsonPath "data" (locationOf cfg rec0) "confirmation_rates") =
      some (.jsonF M))
    (hg : ∀ g ∈ predictedGradesList cfg, objMem M g = true)
    (hu : objLookup M "ucas_id" = some (.str (parseCourseId idOrUrl)))
    (hd : mkdirs fs ("data" :: sanitizedLocation (locationOf cfg rec0)) = fs) :
    processEntity cfg net idOrUrl fs = (.ok (histFill rec0 H, M), fs, [.detail]) := by
  have hlen := locationOf_notShort cfg rec0
  have hBasic : fetchBasicDetails cfg net (parseCourseId idOrUrl) fs =
      (.ok (rec0, locationOf cfg rec0), fs) := by
    unfold fetchBasicDetails
    rw [hb]
    dsimp only
    rw [outputWrite_noop fs "data" (locationOf cfg rec0) "course" net.detailJson h1 hd]
  have hie : H.isEmpty = false := by
    cases H with
    | nil => exact absurd rfl hHne
    | cons a l => rfl
  have hHist : fetchHistoricData net (locationOf cfg rec0) rec0 fs =
      (.ok (histFill rec0 H), fs, []) := by
    unfold fetchHistoricData
    rw [outputRead_found fs "data" (locationOf cfg rec0) "historic" H hlen h2, hd]
    simp [hie]
  have hConf : fetchConfirmationRates cfg net (parseCourseId idOrUrl)
      (locationOf cfg rec0) fs = (.ok M, fs, []) := by
    unfold fetchConfirmationRates
    rw [outputRead_found fs "data" (locationOf cfg rec0) "confirmation_rates" M hlen h3, hd]
    dsimp only [Option.getD]
    rw [confLoop_skip_all net (predictedGradesList cfg) M hg]
    dsimp only
    rw [objInsert_same M "ucas_id" (.str (parseCourseId idOrUrl)) hu]
    rw [outputWrite_noop fs "data" (locationOf cfg rec0) "confirmation_rates" M h3 hd]
  simp only [processEntity, hBasic, hHist, hConf]
  rfl

/-! ## Run-one inversion lemmas -/

theorem fetchBasicDetails_ok_inv (cfg : AcqConfig) (net : Network) (uid : String)
    (fs : FS) (rec0 : CourseRec) (loc : List String) (fs1 : FS)
    (h : fetchBasicDetails cfg net uid fs = (.ok (rec0, loc), fs1)) :
    buildBasic uid net.detailJson = .ok rec0 ∧ loc = locationOf cfg rec0
    ∧ fs1 = outputWrite fs "data" (locationOf cfg rec0) "course" (.record net.detailJson) := by
  unfold fetchBasicDetails at h
  cases hb : buildBasic uid net.detailJson with
  | error e =>
      rw [hb] at h
      exact absurd h (by simp)
  | ok r0 =>
      rw [hb] at h
      dsimp only at h
      simp only [Prod.mk.injEq, Except.ok.injEq] at h
      obtain ⟨⟨ha, hl⟩, hf⟩ := h
      subst ha
      subst hl
      subst hf
      exact ⟨rfl, rfl, rfl⟩

theorem historicWriteFacts (net : Network) (loc : List String) (fs : FS) :
    pathLookup (outputWrite (mkdirs fs ("data" :: sanitizedLocation loc)) "data" loc
        "historic" (.record net.historicJson)).files (jsonPath "data" loc "historic") =
      some (.jsonF net.historicJson)
    ∧ (∀ p, p ≠ jsonPath "data" loc "historic" →
        pathLookup (outputWrite (mkdirs fs ("data" :: sanitizedLocation loc)) "data" loc
          "historic" (.record net.historicJson)).files p = pathLookup fs.files p)
    ∧ (outputWrite (mkdirs fs ("data" :: sanitizedLocation loc)) "data" loc
        "historic" (.record net.historicJson)).dirs =
      (mkdirs fs ("data" :: sanitizedLocation loc)).dirs := by
  refine ⟨?_, ?_, ?_⟩
  · rw [outputWrite_record]
    exact pathLookup_insert_self _ _ _
  · intro p hp
    rw [outputWrite_record]
    exact pathLookup_insert_ne _ _ _ _ (Ne.symm hp)
  · rw [outputWrite_record, mkdirs_mkdirs]

theorem fetchHistoricData_ok_inv (net : Network) (loc : List String) (rec0 : CourseRec)
    (fs : FS) (res : CourseRec) (fs2 : FS) (hc : List NetCall)
    (hlen : ¬ loc.length < 2)
    (hne : net.historicJson ≠ [])
    (h : fetchHistoricData net loc rec0 fs = (.ok res, fs2, hc)) :
    ∃ H, H ≠ [] ∧ res = histFill rec0 H
      ∧ pathLookup fs2.files (jsonPath "data" loc "historic") = some (.jsonF H)
      ∧ (∀ p, p ≠ jsonPath "data" loc "historic" →
          pathLookup fs2.files p = pathLookup fs.files p)
      ∧ fs2.dirs = (mkdirs fs ("data" :: sanitizedLocation loc)).dirs := by
  unfold fetchHistoricData at h
  obtain ⟨hOpt, hr, hlink⟩ : ∃ hOpt,
      outputRead fs "data" loc "historic" =
        (.ok hOpt, mkdirs fs ("data" :: sanitizedLocation loc))
      ∧ ∀ Hc, hOpt = some Hc →
          pathLookup fs.files (jsonPath "data" loc "historic") = some (.jsonF Hc) := by
    cases hl : pathLookup fs.files (jsonPath "data" loc "historic") with
    | none => exact ⟨none, outputRead_absent fs "data" loc "historic" hl, by simp⟩
    | some fd =>
        cases fd with
        | jsonF Hc =>
            refine ⟨some Hc, outputRead_found fs "data" loc "historic" Hc hlen hl, ?_⟩
            intro Hc2 he
            injection he with he2
            subst he2
            rfl
        | htmlF s2 =>
            exact ⟨none, outputRead_notJson fs "data" loc "historic" _ hlen hl
              (fun o hh => FileData.noConfusion hh), by simp⟩
        | textF s2 =>
            exact ⟨none, outputRead_notJson fs "data" loc "historic" _ hlen hl
              (fun o hh => FileData.noConfusion hh), by simp⟩
        | badJson s2 =>
            exact ⟨none, outputRead_notJson fs "data" loc "historic" _ hlen hl
              (fun o hh => FileData.noConfusion hh), by simp⟩
  rw [hr] at h
  dsimp only at h
  obtain ⟨hw1, hw2, hw3⟩ := historicWriteFacts net loc fs
  cases hOpt with
  | none =>
      simp only [Prod.mk.injEq, Except.ok.injEq] at h
      obtain ⟨h1, h2, h3⟩ := h
      subst h1
      subst h2
      exact ⟨net.historicJson, hne, rfl, hw1, hw2, hw3⟩
  | some Hc =>
      cases hie : Hc.isEmpty with
      | true =>
          simp only [hie, if_true, Prod.mk.injEq, Except.ok.injEq] at h
          obtain ⟨h1, h2, h3⟩ := h
          subst h1
          subst h2
          exact ⟨net.historicJson, hne, rfl, hw1, hw2, hw3⟩
      | false =>
          simp only [hie, Bool.false_eq_true, if_false, Option.getD_some,
            Prod.mk.injEq, Except.ok.injEq] at h
          obtain ⟨h1, h2, h3⟩ := h
          subst h1
          subst h2
          have hcne : Hc ≠ [] := by
            intro he
            subst he
            exact Bool.noConfusion hie
          refine ⟨Hc, hcne, rfl, ?_, fun p _ => rfl, rfl⟩
          rw [mkdirs_files]
          exact hlink Hc rfl

theorem fetchConfirmationRates_ok_inv (cfg : AcqConfig) (net : Network) (uid : String)
    (loc : List String) (fs : FS) (m2 : JsonObj) (fs3 : FS) (cc : List NetCall)
    (hlen : ¬ loc.length < 2)
    (h : fetchConfirmationRates cfg net uid loc fs = (.ok m2, fs3, cc)) :
    pathLookup fs3.files (jsonPath "data" loc "confirmation_rates") = some (.jsonF m2)
    ∧ (∀ g ∈ predictedGradesList cfg, objMem m2 g = true)
    ∧ objLookup m2 "ucas_id" = some (.str uid)
    ∧ (∀ p, p ≠ jsonPath "data" loc "confirmation_rates" →
        pathLookup fs3.files p = pathLookup fs.files p)
    ∧ fs3.dirs = (mkdirs fs ("data" :: sanitizedLocation loc)).dirs := by
  unfold fetchConfirmationRates at h
  obtain ⟨cOpt, hr⟩ : ∃ cOpt,
      outputRead fs "data" loc "confirmation_rates" =
        (.ok cOpt, mkdirs fs ("data" :: sanitizedLocation loc)) := by
    cases hl : pathLookup fs.files (jsonPath "data" loc "confirmation_rates") with
    | none => exact ⟨none, outputRead_absent fs "data" loc "confirmation_rates" hl⟩
    | some fd =>
        cases fd with
        | jsonF C => exact ⟨some C, outputRead_found fs "data" loc "confirmation_rates" C hlen hl⟩
        | htmlF s2 =>
            exact ⟨none, outputRead_notJson fs "data" loc "confirmation_rates" _ hlen hl
              (fun o hh => FileData.noConfusion hh)⟩
        | textF s2 =>
            exact ⟨none, outputRead_notJson fs "data" loc "confirmation_rates" _ hlen hl
              (fun o hh => FileData.noConfusion hh)⟩
        | badJson s2 =>
            exact ⟨none, outputRead_notJson fs "data" loc "confirmation_rates" _ hlen hl
              (fun o hh => FileData.noConfusion hh)⟩
  rw [hr] at h
  dsimp only at h
  rcases hcl : confLoop net (predictedGradesList cfg) (cOpt.getD []) with ⟨resL, callsL⟩
  rw [hcl] at h
  cases resL with
  | error e => exact absurd h (by simp)
  | ok m1 =>
      simp only [Prod.mk.injEq, Except.ok.injEq] at h
      obtain ⟨h1, h2, h3⟩ := h
      subst h1
      subst h2
      obtain ⟨hmono, hall⟩ := confLoop_ok_mem net (predictedGradesList cfg) (cOpt.getD []) m1 callsL hcl
      refine ⟨?_, ?_, ?_, ?_, ?_⟩
      · rw [outputWrite_record]
        exact pathLookup_insert_self _ _ _
      · intro g hg
        exact objMem_insert_of_mem m1 "ucas_id" g (.str uid) (hall g hg)
      · exact objLookup_insert_self m1 "ucas_id" (.str uid)
      · intro p hp
        rw [outputWrite_record]
        exact pathLookup_insert_ne _ _ _ _ (Ne.symm hp)
      · rw [outputWrite_record, mkdirs_mkdirs]

theorem mkdirs_dirs_only (fs fs2 : FS) (p : List String) (h : fs.dirs = fs2.dirs) :
    (mkdirs fs p).dirs = (mkdirs fs2 p).dirs := by
  simp [mkdirs, h]

/-- C1 (amended): the detail fetch is unconditional, so a run never issues
zero network calls; but the historic and per-grade confirmation fetches
are cache-first.  Consequently, after any successful per-entity run
(against a statistics source whose historic document is non-empty), an
immediately repeated run over the unchanged catalogue issues exactly one
network call -- the detail fetch -- serves historic and confirmation data
entirely from cache, produces the identical merged record, and leaves the
cache byte-for-byte unchanged. -/
theorem acquirerSecondRunDetailOnly (cfg : AcqConfig) (net : Network) (idOrUrl : String)
    (fs : FS) (r : CourseRec × JsonObj) (fsA : FS) (calls : List NetCall)
    (hrun : processEntity cfg net idOrUrl fs = (.ok r, fsA, calls))
    (hh : net.historicJson ≠ []) :
    processEntity cfg net idOrUrl fsA = (.ok r, fsA, [.detail]) := by
  simp only [processEntity] at hrun
  rcases hB : fetchBasicDetails cfg net (parseCourseId idOrUrl) fs with ⟨resB, fs1⟩
  rw [hB] at hrun
  cases resB with
  | error e => simp at hrun
  | ok rl =>
      rcases rl with ⟨rec0, loc⟩
      dsimp only at hrun
      obtain ⟨hb, hloc, hfs1⟩ := fetchBasicDetails_ok_inv cfg net _ fs rec0 loc fs1 hB
      subst hloc
      subst hfs1
      rcases hH : fetchHistoricData net (locationOf cfg rec0) rec0
          (outputWrite fs "data" (locationOf cfg rec0) "course" (.record net.detailJson))
        with ⟨resH, fs2, hc⟩
      rw [hH] at hrun
      cases resH with
      | error e => simp at hrun
      | ok rec1 =>
          dsimp only at hrun
          obtain ⟨H, hHne, hrec1, hlookH, hpresH, hdirsH⟩ :=
            fetchHistoricData_ok_inv net _ rec0 _ rec1 fs2 hc
              (locationOf_notShort cfg rec0) hh hH
          rcases hC : fetchConfirmationRates cfg net (parseCourseId idOrUrl)
              (locationOf cfg rec0) fs2 with ⟨resC, fs3, cc⟩
          rw [hC] at hrun
          cases resC with
          | error e => simp at hrun
          | ok m2 =>
              dsimp only at hrun
              obtain ⟨hlookC, hmem, huid, hpresC, hdirsC⟩ :=
                fetchConfirmationRates_ok_inv cfg net _ _ fs2 m2 fs3 cc
                  (locationOf_notShort cfg rec0) hC
              simp only [Prod.mk.injEq, Except.ok.injEq] at hrun
              obtain ⟨hr, hfsA, _⟩ := hrun
              subst hr
              subst hfsA
              have hcourse : pathLookup fs3.files
                  (jsonPath "data" (locationOf cfg rec0) "course") =
                  some (.jsonF net.detailJson) := by
                rw [hpresC _ (jsonPath_ne "data" _ "course" "confirmation_rates" (by decide))]
                rw [hpresH _ (jsonPath_ne "data" _ "course" "historic" (by decide))]
                rw [outputWrite_record]
                exact pathLookup_insert_self _ _ _
              have hhist3 : pathLookup fs3.files
                  (jsonPath "data" (locationOf cfg rec0) "historic") = some (.jsonF H) := by
                rw [hpresC _ (jsonPath_ne "data" _ "historic" "confirmation_rates" (by decide))]
                exact hlookH
              have hW1dirs : (outputWrite fs "data" (locationOf cfg rec0) "course"
                  (.record net.detailJson)).dirs =
                  (mkdirs fs ("data" :: sanitizedLocation (locationOf cfg rec0))).dirs := by
                rw [outputWrite_record]
              have hdirs3 : fs3.dirs =
                  (mkdirs fs ("data" :: sanitizedLocation (locationOf cfg rec0))).dirs := by
                rw [hdirsC, mkdirs_dirs_only fs2
                  (mkdirs (outputWrite fs "data" (locationOf cfg rec0) "course"
                    (.record net.detailJson))
                    ("data" :: sanitizedLocation (locationOf cfg rec0))) _ (by rw [hdirsH]),
                  mkdirs_mkdirs,
                  mkdirs_dirs_only (outputWrite fs "data" (locationOf cfg rec0) "course"
                    (.record net.detailJson))
                    (mkdirs fs ("data" :: sanitizedLocation (locationOf cfg rec0))) _ hW1dirs,
                  mkdirs_mkdirs]
              have hd : mkdirs fs3 ("data" :: sanitizedLocation (locationOf cfg rec0)) = fs3 :=
                mkdirs_noop fs3 _ (fun q hq => by
                  rw [hdirs3]
                  exact mkdirs_mem fs _ q hq)
              have hmain := processEntity_allCached cfg net idOrUrl fs3 rec0 H m2
                hb hcourse hhist3 hHne hlookC hmem huid hd
              rw [hrec1]
              exact hmain

/-- C1 counterexample: an entity whose detail, aggregate-grade, and
per-grade confirmation-rate documents are all already cached still causes
one network call -- __fetch_basic_details fetches unconditionally (the
cache location itself is derived from the fetched fields), so the claimed
zero-network-call processing is impossible. -/
theorem acquirerAllCachedStillFetchesDetail :
    (processEntity cfgC netC "id0" fsC).2.2 = [NetCall.detail]
    ∧ ([NetCall.detail] : List NetCall) ≠ [] := ⟨rfl, by simp⟩

/-- Witness for C1: the second run over the store left by the first run
issues exactly the detail call and reproduces record and store. -/
theorem acquirerSecondRunDetailOnlyWitness :
    processEntity cfgC netC "id0" fsAC = (.ok (recC, confC), fsAC, [NetCall.detail]) :=
  acquirerSecondRunDetailOnly cfgC netC "id0" fsC (recC, confC) fsAC [NetCall.detail]
    rfl (List.cons_ne_nil _ _)

end Ucas
